import Mathlib

/-! Shallow embedding of the CLIP zero-shot classification notebook
(`src/CLIP_tutorials.ipynb`).

Floating-point feature values are idealized as exact rationals (`ℚ`).
The Euclidean norm is handled through its square (`sqNorm`), which stays
inside `ℚ`; a vector has Euclidean norm 1 exactly when its squared norm
is 1, since the norm is nonnegative.

The external collaborators of the notebook (the HTTP library, the PIL
image decoder and the CLIP encoders themselves) are parameters of the
embedded pipeline: the notebook's own logic — fetching, the unconditional
L2-normalizing division, the dot-product similarity, the numpy arg-max
and the printed report — is translated directly from the cells.
-/

namespace CLIPZeroShot

/-- A feature vector: one row of `image_features` or `text_features`. -/
abbrev Vec := List ℚ

/-- Dot product of two feature vectors, as computed by the matrix product
`image_features @ text_features.T` for one pair of rows. -/
def dot (v w : Vec) : ℚ := (List.zipWith (fun a b => a * b) v w).sum

/-- Squared Euclidean norm of a vector.  `‖v‖ = 1 ↔ sqNorm v = 1`. -/
def sqNorm (v : Vec) : ℚ := dot v v

/-- The division `features / features.norm(dim=-1, keepdim=True)` performed in
cells 10 and 12: every component is divided by the scalar `r`, where `r`
stands for the Euclidean norm value computed by torch (characterized in the
theorems below by `r ^ 2 = sqNorm v`). -/
def normalizeBy (v : Vec) (r : ℚ) : Vec := v.map (fun a => a / r)

/-- Cell 14's `similarity = (image_features @ text_features.T).cpu().numpy().flatten()`:
one dot product per text feature row, in input order. -/
def similarity (img : Vec) (feats : List Vec) : List ℚ := feats.map (fun t => dot img t)

/-- The `numpy.argmax` scan on a list of scores: index and value of the maximum, with
the FIRST occurrence kept on ties; `none` on the empty list (numpy raises
`ValueError` there).  A head element wins a tie against the best of the
tail, so the reported index is the first occurrence of the maximum. -/
def argmaxPair : List ℚ → Option (ℕ × ℚ)
  | [] => none
  | x :: xs =>
    match argmaxPair xs with
    | none => some (0, x)
    | some (j, m) => if x < m then some (j + 1, m) else some (0, x)

/-- Cell 14's `best_match_idx = similarity.argmax()`. -/
def best_match_idx (scores : List ℚ) : Option ℕ := (argmaxPair scores).map (fun p => p.1)

/-- The maximum similarity score reported by the ranking step. -/
def bestScoreOf (img : Vec) (enc : String → Vec) (prompts : List String) : Option ℚ :=
  (argmaxPair (similarity img (prompts.map enc))).map (fun p => p.2)

/-- Cell 14's `best_prompt = text_prompts[best_match_idx]`; `enc` is the
composite text pipeline `tokenize ∘ encode_text ∘ normalize` of cell 12. -/
def bestPromptOf (img : Vec) (enc : String → Vec) (prompts : List String) : Option String :=
  (argmaxPair (similarity img (prompts.map enc))).map (fun p => prompts.getD p.1 "")

/-- The prompt list defined in cell 12 of the notebook. -/
def text_prompts : List String :=
  ["a photo of a bus", "a photo of a taxi", "a photo of a Road", "a photo of a cat",
   "a photo of a dog", "a photo of a bird", "a photo of a computer", "a photo of a phone"]

/-- Failure modes of the embedded pipeline.  `valueError` models the
`ValueError` numpy raises for `argmax` of an empty sequence;
`connectionError` models the exception `requests.get` raises when the host
is unreachable; `unidentifiedImage` models PIL failing to decode the bytes.
`invalidInput` and `normalization` are the spec-level error kinds
(`InvalidInputError`, `NormalizationError`); no corresponding check or
raise exists anywhere in the source. -/
inductive PipeErr
  | invalidInput
  | valueError
  | connectionError
  | unidentifiedImage
  | normalization
deriving DecidableEq

/-- The normalization step of cells 10 and 12, given the feature row `v` and
the norm value `r`: the source divides unconditionally — there is no
zero-norm guard, so the step always returns a vector and never raises. -/
def normalizeCell (v : Vec) (r : ℚ) : Except PipeErr Vec := Except.ok (normalizeBy v r)

/-- One line of the report loop of cell 14:
`print(f"Prompt: ... | Similarity score: ...")`, with the numeric rendering
of the score abstracted as `showQ`. -/
def promptLine (showQ : ℚ → String) (p : String) (s : ℚ) : String :=
  "Prompt: " ++ p ++ " | Similarity score: " ++ showQ s

/-- Cell 14 in full: compute `similarity`, print one line per prompt (via
`zip text_prompts similarity`), take `similarity.argmax()` (raising on an
empty sequence), then print the best prompt and its score.  The returned
value is the list of printed lines together with the selected index and
prompt; the empty string entry models the leading `\n` of the final print. -/
def rankingCell (showQ : ℚ → String) (img : Vec) (enc : String → Vec)
    (prompts : List String) : Except PipeErr (List String × ℕ × String) :=
  let sims := similarity img (prompts.map enc)
  let lines := (prompts.zip sims).map (fun pr => promptLine showQ pr.1 pr.2)
  match argmaxPair sims with
  | none => Except.error PipeErr.valueError
  | some (i, _) =>
      Except.ok
        (lines ++
          ["", "The most similar text prompt to the input image is: " ++ prompts.getD i "",
           "Similarity score: " ++ showQ (sims.getD i 0)],
         i, prompts.getD i "")

/-- Outcome of the HTTP GET of cell 6, as seen by the notebook: either the
connection fails (the library raises), or a response with some status code
and body arrives. -/
inductive HttpResult
  | unreachable
  | response (status : ℕ) (body : List ℕ)

/-- Cell 6's `response = requests.get(image_url)`: an unreachable host makes
the library raise; otherwise the response is returned whole — the source
never calls `raise_for_status` and never reads `status_code`. -/
def requestsGet : HttpResult → Except PipeErr (ℕ × List ℕ)
  | HttpResult.unreachable => Except.error PipeErr.connectionError
  | HttpResult.response s b => Except.ok (s, b)

/-- Cell 6's `image = Image.open(BytesIO(response.content)).convert("RGB")`,
with the external PIL decoder abstracted as `pilDecode`.  The body of the
response is decoded whatever the status code was. -/
def loadImageCell {α : Type} (pilDecode : List ℕ → Option α) (h : HttpResult) :
    Except PipeErr α :=
  match requestsGet h with
  | Except.error e => Except.error e
  | Except.ok (_, body) =>
      match pilDecode body with
      | none => Except.error PipeErr.unidentifiedImage
      | some bmp => Except.ok bmp

/-- The notebook end to end: fetch and decode the image (cell 6), encode it
(cell 10, abstracted as `encImage`, already including the normalization),
then run the similarity-and-report cell (cell 14). -/
def notebookRun {α : Type} (pilDecode : List ℕ → Option α) (encImage : α → Vec)
    (showQ : ℚ → String) (enc : String → Vec) (h : HttpResult)
    (prompts : List String) : Except PipeErr (List String × ℕ × String) :=
  match loadImageCell pilDecode h with
  | Except.error e => Except.error e
  | Except.ok bmp => rankingCell showQ (encImage bmp) enc prompts

/-- A concrete score renderer, for the concrete instances below. -/
def showScore (q : ℚ) : String := toString q

/-- A concrete text encoder mapping every prompt to the same unit vector:
it realizes a tie between all prompts. -/
def tieEncoder : String → Vec := fun _ => [1]

/-! ### Basic lemmas about `dot`, `sqNorm` and `normalizeBy` -/

lemma dot_nil_left (w : Vec) : dot [] w = 0 := rfl

lemma dot_nil_right (v : Vec) : dot v [] = 0 := by cases v <;> rfl

lemma dot_cons (a b : ℚ) (v w : Vec) : dot (a :: v) (b :: w) = a * b + dot v w := by
  simp [dot, List.zipWith_cons_cons]

lemma sqNorm_nil : sqNorm [] = 0 := rfl

lemma sqNorm_cons (a : ℚ) (v : Vec) : sqNorm (a :: v) = a * a + sqNorm v := by
  simp [sqNorm, dot_cons]

lemma sqNorm_nonneg (v : Vec) : 0 ≤ sqNorm v := by
  induction v with
  | nil => simp [sqNorm_nil]
  | cons a v ih => have := mul_self_nonneg a; rw [sqNorm_cons]; linarith

/-- Dividing every component by `r` divides the squared norm by `r ^ 2`
(also for `r = 0`, since division by zero is zero in `ℚ`). -/
lemma sqNorm_normalizeBy (v : Vec) (r : ℚ) :
    sqNorm (normalizeBy v r) = sqNorm v / r ^ 2 := by
  induction v with
  | nil => simp [normalizeBy, sqNorm_nil]
  | cons a v ih =>
      have hcons : normalizeBy (a :: v) r = (a / r) :: normalizeBy v r := rfl
      rw [hcons, sqNorm_cons, sqNorm_cons, ih, div_mul_div_comm, ← pow_two r,
        div_add_div_same]

/-! ### Lemmas about the numpy arg-max -/

lemma argmaxPair_cons (x : ℚ) (xs : List ℚ) :
    argmaxPair (x :: xs) =
      match argmaxPair xs with
      | none => some (0, x)
      | some (j, m) => if x < m then some (j + 1, m) else some (0, x) := rfl

lemma argmaxPair_eq_none_iff (l : List ℚ) : argmaxPair l = none ↔ l = [] := by
  cases l with
  | nil => simp [argmaxPair]
  | cons x xs =>
      rw [argmaxPair_cons]
      cases h : argmaxPair xs with
      | none => simp
      | some p => obtain ⟨j, m⟩ := p; by_cases hx : x < m <;> simp [hx]

/-- The arg-max scan returns the value at the returned index; that value
bounds every element of the list; and every element at a strictly smaller
index is strictly below it (the index is the FIRST occurrence of the
maximum). -/
lemma argmaxPair_spec :
    ∀ (l : List ℚ) (i : ℕ) (m : ℚ), argmaxPair l = some (i, m) →
      l[i]? = some m ∧ (∀ x ∈ l, x ≤ m) ∧
        (∀ j, j < i → ∀ y, l[j]? = some y → y < m) := by
  intro l
  induction l with
  | nil => intro i m h; simp [argmaxPair] at h
  | cons x xs ih =>
      intro i m h
      rw [argmaxPair_cons] at h
      cases htail : argmaxPair xs with
      | none =>
          rw [htail] at h
          simp only [Option.some.injEq, Prod.mk.injEq] at h
          obtain ⟨hi, hm⟩ := h
          have hxs : xs = [] := (argmaxPair_eq_none_iff xs).mp htail
          subst hi hm hxs
          refine ⟨by simp, ?_, ?_⟩
          · intro y hy; simp at hy; simp [hy]
          · intro j hj; omega
      | some p =>
          obtain ⟨j, m'⟩ := p
          rw [htail] at h
          obtain ⟨hget, hle, hfirst⟩ := ih j m' htail
          by_cases hx : x < m'
          · simp only [hx, if_true, Option.some.injEq, Prod.mk.injEq] at h
            obtain ⟨hi, hm⟩ := h
            subst hm
            subst hi
            refine ⟨by simpa using hget, ?_, ?_⟩
            · intro y hy
              rcases List.mem_cons.mp hy with hy | hy
              · exact hy ▸ le_of_lt hx
              · exact hle y hy
            · intro k hk y hky
              cases k with
              | zero =>
                  simp only [List.getElem?_cons_zero, Option.some.injEq] at hky
                  exact hky ▸ hx
              | succ k' =>
                  rw [List.getElem?_cons_succ] at hky
                  exact hfirst k' (by omega) y hky
          · simp only [hx, if_false, Option.some.injEq, Prod.mk.injEq] at h
            obtain ⟨hi, hm⟩ := h
            subst hm
            subst hi
            refine ⟨by simp, ?_, ?_⟩
            · intro y hy
              rcases List.mem_cons.mp hy with hy | hy
              · exact le_of_eq hy
              · exact le_trans (hle y hy) (not_lt.mp hx)
            · intro k hk; omega

/-- A nonempty list has an arg-max. -/
lemma argmaxPair_of_ne_nil (l : List ℚ) (h : l ≠ []) :
    ∃ i m, argmaxPair l = some (i, m) := by
  cases hl : argmaxPair l with
  | none => exact absurd ((argmaxPair_eq_none_iff l).mp hl) h
  | some p => exact ⟨p.1, p.2, by simp [hl]⟩

lemma argmaxPair_idx_lt (l : List ℚ) (i : ℕ) (m : ℚ) (h : argmaxPair l = some (i, m)) :
    i < l.length := by
  obtain ⟨hget, -, -⟩ := argmaxPair_spec l i m h
  exact (List.getElem?_eq_some.mp hget).1

/-- Mapping the prompt list through the text encoder and then taking dot
products is the same as scoring each prompt directly. -/
lemma similarity_map_enc (img : Vec) (enc : String → Vec) (l : List String) :
    similarity img (l.map enc) = l.map (fun p => dot img (enc p)) := by
  simp [similarity, List.map_map]

lemma getD_of_getElem? {α : Type} (l : List α) (n : ℕ) (a d : α) (h : l[n]? = some a) :
    l.getD n d = a := by
  rw [List.getD_eq_getElem?_getD, h]; rfl

/-- Cauchy-Schwarz for list dot products, in squared form (no square roots
needed, so the statement stays inside `ℚ`). -/
lemma dot_sq_le (v : Vec) : ∀ w : Vec, dot v w ^ 2 ≤ sqNorm v * sqNorm w := by
  induction v with
  | nil => intro w; simp [dot_nil_left, sqNorm_nil]
  | cons a as ih =>
      intro w
      cases w with
      | nil => simp [dot_nil_right, sqNorm_nil]
      | cons b bs =>
          have hd := ih bs
          have hA := sqNorm_nonneg as
          have hB := sqNorm_nonneg bs
          rw [dot_cons, sqNorm_cons, sqNorm_cons]
          set d := dot as bs with hdd
          set A := sqNorm as with hAA
          set B := sqNorm bs with hBB
          rcases eq_or_lt_of_le hA with hA0 | hApos
          · have hd0 : d = 0 := by nlinarith [sq_nonneg d]
            rw [hd0, ← hA0]
            nlinarith [mul_nonneg (mul_self_nonneg a) hB]
          · have key : A * ((a * a + A) * (b * b + B) - (a * b + d) ^ 2)
                = (a * d - b * A) ^ 2 + (A + a ^ 2) * (A * B - d ^ 2) := by ring
            have hS : 0 ≤ (a * d - b * A) ^ 2 + (A + a ^ 2) * (A * B - d ^ 2) := by
              have h1 : (0:ℚ) ≤ (a * d - b * A) ^ 2 := sq_nonneg _
              have h2 : (0:ℚ) ≤ A + a ^ 2 := by nlinarith [sq_nonneg a]
              have h3 : (0:ℚ) ≤ A * B - d ^ 2 := by linarith
              nlinarith
            have hAW : 0 ≤ A * ((a * a + A) * (b * b + B) - (a * b + d) ^ 2) := by
              rw [key]; exact hS
            nlinarith [hAW, hApos]

/-- If `x` sits at index `i` of `l`, satisfies the predicate, and every
earlier element fails it, then `x` is the head of the filtered list. -/
lemma filter_head?_of_first {α : Type} (p : α → Bool) :
    ∀ (l : List α) (i : ℕ) (x : α), l[i]? = some x → p x = true →
      (∀ j, j < i → ∀ y, l[j]? = some y → p y = false) →
      (l.filter p).head? = some x := by
  intro l
  induction l with
  | nil => intro i x hx _ _; simp at hx
  | cons a as ih =>
      intro i x hx hpx hbef
      cases i with
      | zero =>
          simp only [List.getElem?_cons_zero, Option.some.injEq] at hx
          subst hx
          simp [List.filter_cons, hpx]
      | succ i' =>
          rw [List.getElem?_cons_succ] at hx
          have hpa : p a = false := hbef 0 (Nat.succ_pos i') a (by simp)
          rw [List.filter_cons]
          simp only [hpa, Bool.false_eq_true, if_false]
          exact ih i' x hx hpx
            (fun j hj y hy => hbef (j + 1) (by omega) y (by simpa using hy))

lemma getElem?_eq_some_getD {α : Type} (l : List α) (j : ℕ) (d : α) (hj : j < l.length) :
    l[j]? = some (l.getD j d) := by
  have h : l[j]? = some l[j] := List.getElem?_eq_some.mpr ⟨hj, rfl⟩
  rw [h, getD_of_getElem? l j l[j] d h]

/-! ### Claim theorems -/

/-- C2: the pipeline produces exactly one similarity score per input prompt,
and the scores are in input order: the entry at each index `j` of the score
list is the dot product of the image embedding with the embedding of the
prompt at the same index `j`. -/
theorem similarity_length_and_order (img : Vec) (enc : String → Vec)
    (prompts : List String) :
    (similarity img (prompts.map enc)).length = prompts.length ∧
      ∀ j : ℕ, (similarity img (prompts.map enc))[j]? =
        (prompts[j]?).map (fun p => dot img (enc p)) := by
  constructor
  · simp [similarity]
  · intro j
    rw [similarity_map_enc, List.getElem?_map]

/-- C4: dividing an encoder output of nonzero Euclidean norm by that norm
(the value `r` with `r ^ 2 = sqNorm v`) yields a vector of Euclidean norm
exactly 1, i.e. of squared norm 1. -/
theorem normalized_sqNorm_one (v : Vec) (r : ℚ) (h2 : r ^ 2 = sqNorm v)
    (hnz : sqNorm v ≠ 0) : sqNorm (normalizeBy v r) = 1 := by
  have hr : r ≠ 0 := by
    intro h0
    apply hnz
    rw [← h2, h0]
    norm_num
  rw [sqNorm_normalizeBy, ← h2, div_self (pow_ne_zero 2 hr)]

/-- Witness for C4 at the vector `[3, 4]`, whose Euclidean norm is `5`. -/
theorem normalized_sqNorm_one_witness :
    (5:ℚ) ^ 2 = sqNorm [3, 4] ∧ sqNorm ([3, 4] : Vec) ≠ 0 ∧
      sqNorm (normalizeBy [3, 4] 5) = 1 :=
  ⟨by norm_num [sqNorm_cons, sqNorm_nil], by norm_num [sqNorm_cons, sqNorm_nil],
    normalized_sqNorm_one [3, 4] 5 (by norm_num [sqNorm_cons, sqNorm_nil])
      (by norm_num [sqNorm_cons, sqNorm_nil])⟩

/-- C6: the dot product of two unit-normalized embeddings lies in `[-1, 1]`
(Cauchy-Schwarz). -/
theorem similarity_score_in_unit_interval (a b : Vec) (ha : sqNorm a = 1)
    (hb : sqNorm b = 1) : -1 ≤ dot a b ∧ dot a b ≤ 1 := by
  have h := dot_sq_le a b
  rw [ha, hb] at h
  constructor <;> nlinarith [sq_nonneg (dot a b - 1), sq_nonneg (dot a b + 1)]

/-- Witness for C6 at the orthonormal pair `[1, 0]`, `[0, 1]`. -/
theorem similarity_score_in_unit_interval_witness :
    sqNorm ([1, 0] : Vec) = 1 ∧ sqNorm ([0, 1] : Vec) = 1 ∧
      -1 ≤ dot [1, 0] [0, 1] ∧ dot [1, 0] [0, 1] ≤ 1 :=
  ⟨by norm_num [sqNorm_cons, sqNorm_nil], by norm_num [sqNorm_cons, sqNorm_nil],
    similarity_score_in_unit_interval [1, 0] [0, 1]
      (by norm_num [sqNorm_cons, sqNorm_nil]) (by norm_num [sqNorm_cons, sqNorm_nil])⟩

/-- C10: for a nonempty prompt list, the arg-max over the similarity scores
is defined and strictly below the number of prompts, so the lookup
`text_prompts[best_match_idx]` is in bounds. -/
theorem best_match_idx_in_bounds (img : Vec) (enc : String → Vec)
    (prompts : List String) (h : prompts ≠ []) :
    ∃ i, best_match_idx (similarity img (prompts.map enc)) = some i ∧
      i < prompts.length := by
  have hne : similarity img (prompts.map enc) ≠ [] := by
    rw [similarity_map_enc]
    simpa using h
  obtain ⟨i, m, him⟩ := argmaxPair_of_ne_nil _ hne
  have hlt := argmaxPair_idx_lt _ i m him
  have hlen : (similarity img (prompts.map enc)).length = prompts.length := by
    simp [similarity]
  exact ⟨i, by simp [best_match_idx, him], by omega⟩

/-- Witness for C10 at the notebook's own prompt list. -/
theorem best_match_idx_in_bounds_witness :
    text_prompts ≠ [] ∧
      ∃ i, best_match_idx (similarity [1] (text_prompts.map tieEncoder)) = some i ∧
        i < text_prompts.length :=
  ⟨by simp [text_prompts], best_match_idx_in_bounds [1] tieEncoder text_prompts
    (by simp [text_prompts])⟩

/-- C1: for a nonempty prompt list, the reported index is that of a prompt
whose embedding attains the maximal dot product with the image embedding,
and every strictly earlier prompt scores strictly lower (the index is the
first occurrence of the maximum). -/
theorem best_match_maximizes (img : Vec) (enc : String → Vec)
    (prompts : List String) (h : prompts ≠ []) :
    ∃ i, best_match_idx (similarity img (prompts.map enc)) = some i ∧
      i < prompts.length ∧
      (∀ j, j < prompts.length →
        dot img (enc (prompts.getD j "")) ≤ dot img (enc (prompts.getD i ""))) ∧
      (∀ j, j < i →
        dot img (enc (prompts.getD j "")) < dot img (enc (prompts.getD i ""))) := by
  have hne : similarity img (prompts.map enc) ≠ [] := by
    rw [similarity_map_enc]
    simpa using h
  obtain ⟨i, m, him⟩ := argmaxPair_of_ne_nil _ hne
  obtain ⟨hget, hle, hfirst⟩ := argmaxPair_spec _ i m him
  rw [similarity_map_enc] at hget hle hfirst
  have hilen : i < prompts.length := by
    have := (List.getElem?_eq_some.mp hget).1
    simpa using this
  have hscore : ∀ j, j < prompts.length →
      (prompts.map (fun p => dot img (enc p)))[j]? =
        some (dot img (enc (prompts.getD j ""))) := by
    intro j hj
    rw [List.getElem?_map, getElem?_eq_some_getD prompts j "" hj]
    rfl
  have hmi : m = dot img (enc (prompts.getD i "")) := by
    have := hscore i hilen
    rw [hget] at this
    exact (Option.some.injEq _ _).mp this.symm |>.symm
  refine ⟨i, by simp [best_match_idx, him], hilen, ?_, ?_⟩
  · intro j hj
    have hmem : dot img (enc (prompts.getD j "")) ∈
        prompts.map (fun p => dot img (enc p)) :=
      List.getElem?_mem (hscore j hj)
    have := hle _ hmem
    rw [hmi] at this
    exact this
  · intro j hj
    have := hfirst j hj (dot img (enc (prompts.getD j "")))
      (hscore j (lt_trans hj hilen))
    rw [hmi] at this
    exact this

/-- Witness for C1 at the notebook's prompt list with an all-tying encoder:
the reported index is the first maximizer. -/
theorem best_match_maximizes_witness :
    text_prompts ≠ [] ∧
      ∃ i, best_match_idx (similarity [1] (text_prompts.map tieEncoder)) = some i ∧
        i < text_prompts.length ∧
        (∀ j, j < text_prompts.length →
          dot [1] (tieEncoder (text_prompts.getD j "")) ≤
            dot [1] (tieEncoder (text_prompts.getD i ""))) ∧
        (∀ j, j < i →
          dot [1] (tieEncoder (text_prompts.getD j "")) <
            dot [1] (tieEncoder (text_prompts.getD i ""))) :=
  ⟨by simp [text_prompts], best_match_maximizes [1] tieEncoder text_prompts
    (by simp [text_prompts])⟩

/-- C8: on success the console output is exactly: one line per prompt, in
input order, of the form `Prompt: p | Similarity score: s` with `s` the dot
product of the image embedding with the embedding of `p`, followed by the
best-match section (a blank line, the best prompt, its score).  The list
returned by `rankingCell` is the complete observable output. -/
theorem rankingCell_output (showQ : ℚ → String) (img : Vec) (enc : String → Vec)
    (prompts : List String) (h : prompts ≠ []) :
    ∃ i, i < prompts.length ∧
      rankingCell showQ img enc prompts = Except.ok
        (prompts.map (fun p => promptLine showQ p (dot img (enc p))) ++
          ["", "The most similar text prompt to the input image is: " ++ prompts.getD i "",
           "Similarity score: " ++ showQ (dot img (enc (prompts.getD i "")))],
         i, prompts.getD i "") := by
  have hsim : similarity img (prompts.map enc) = prompts.map (fun p => dot img (enc p)) :=
    similarity_map_enc img enc prompts
  have hne : similarity img (prompts.map enc) ≠ [] := by
    rw [hsim]
    simpa using h
  obtain ⟨i, m, him⟩ := argmaxPair_of_ne_nil _ hne
  obtain ⟨hget, -, -⟩ := argmaxPair_spec _ i m him
  have hilen : i < prompts.length := by
    have h1 := (List.getElem?_eq_some.mp hget).1
    have h2 : (similarity img (prompts.map enc)).length = prompts.length := by
      simp [similarity]
    omega
  have hgetD : (similarity img (prompts.map enc)).getD i 0 = m :=
    getD_of_getElem? _ i m 0 hget
  have hmi : m = dot img (enc (prompts.getD i "")) := by
    rw [hsim, List.getElem?_map, getElem?_eq_some_getD prompts i "" hilen] at hget
    simpa using hget.symm
  have hzip : prompts.zip (prompts.map (fun p => dot img (enc p))) =
      prompts.map (fun p => (p, dot img (enc p))) := by
    have hz := List.zip_map' (fun p : String => p) (fun p => dot img (enc p)) prompts
    simpa using hz
  rw [hsim] at hgetD
  rw [hmi] at hgetD
  refine ⟨i, hilen, ?_⟩
  simp only [rankingCell]
  rw [him]
  simp only [hsim, hzip, List.map_map, hgetD, Function.comp]
  have hcomp : ((fun pr : String × ℚ => promptLine showQ pr.1 pr.2) ∘
      fun p => (p, dot img (enc p))) = fun p => promptLine showQ p (dot img (enc p)) := rfl
  rw [hcomp]

/-- C8 witness at the notebook's own prompt list. -/
theorem rankingCell_output_witness :
    text_prompts ≠ [] ∧
      ∃ i, i < text_prompts.length ∧
        rankingCell showScore [1] tieEncoder text_prompts = Except.ok
          (text_prompts.map
              (fun p => promptLine showScore p (dot [1] (tieEncoder p))) ++
            ["", "The most similar text prompt to the input image is: " ++
                text_prompts.getD i "",
             "Similarity score: " ++ showScore (dot [1] (tieEncoder (text_prompts.getD i "")))],
           i, text_prompts.getD i "") :=
  ⟨by simp [text_prompts], rankingCell_output showScore [1] tieEncoder text_prompts
    (by simp [text_prompts])⟩

/-- C3 counterexample: on the empty prompt list the pipeline fails with the
numeric library's ValueError coming from `argmax` of an empty sequence, not
with an `InvalidInputError`: the source performs no input validation. -/
theorem empty_prompts_counterexample :
    rankingCell showScore [1] tieEncoder [] = Except.error PipeErr.valueError ∧
      PipeErr.valueError ≠ PipeErr.invalidInput :=
  ⟨rfl, by decide⟩

/-- C3 (amended): on the empty prompt list the similarity step still runs and
produces the empty score list (the report loop prints nothing), after which
the pipeline fails at `similarity.argmax()` with the numeric library's
ValueError — there is no input-validation error in the source. -/
theorem empty_prompts_behavior (showQ : ℚ → String) (img : Vec) (enc : String → Vec) :
    similarity img (([] : List String).map enc) = [] ∧
      rankingCell showQ img enc [] = Except.error PipeErr.valueError :=
  ⟨rfl, rfl⟩

/-- C5 counterexample: the normalization step applied to the zero vector
(whose norm is 0) returns a result instead of failing: no
`NormalizationError` is raised anywhere in the source. -/
theorem zero_norm_counterexample :
    normalizeCell [0, 0] 0 = Except.ok [0, 0] ∧
      normalizeCell [0, 0] 0 ≠ Except.error PipeErr.normalization := by
  constructor
  · simp [normalizeCell, normalizeBy]
  · simp [normalizeCell]

/-- C5 (amended): the source has no zero-norm guard: on a vector of zero
Euclidean norm the normalization step still returns a vector (never an
error), and the returned vector is not unit-normalized — its squared norm is
0, not 1. -/
theorem zero_norm_no_guard (v : Vec) (h : sqNorm v = 0) :
    normalizeCell v 0 = Except.ok (normalizeBy v 0) ∧
      sqNorm (normalizeBy v 0) = 0 := by
  refine ⟨rfl, ?_⟩
  rw [sqNorm_normalizeBy, h]
  norm_num

/-- Witness for the amended C5 at the zero vector `[0, 0]`. -/
theorem zero_norm_no_guard_witness :
    sqNorm ([0, 0] : Vec) = 0 ∧
      normalizeCell [0, 0] 0 = Except.ok (normalizeBy [0, 0] 0) ∧
      sqNorm (normalizeBy [0, 0] 0) = 0 :=
  ⟨by norm_num [sqNorm_cons, sqNorm_nil],
    zero_norm_no_guard [0, 0] (by norm_num [sqNorm_cons, sqNorm_nil])⟩

/-- C7 counterexample: a non-200 response is not treated as a fetch failure.
With a decoder that accepts the body, the whole pipeline SUCCEEDS on a 404
response: no FetchError is raised. -/
theorem non200_counterexample :
    notebookRun (fun _ => some 0) (fun _ => [1]) showScore tieEncoder
        (HttpResult.response 404 [0]) ["a"] ≠ Except.error PipeErr.connectionError ∧
      (notebookRun (fun _ => some 0) (fun _ => [1]) showScore tieEncoder
        (HttpResult.response 404 [0]) ["a"]).isOk = true := by
  have hok : (notebookRun (fun _ => some 0) (fun _ => [1]) showScore tieEncoder
      (HttpResult.response 404 [0]) ["a"]).isOk = true := rfl
  refine ⟨?_, hok⟩
  intro hcontra
  rw [hcontra] at hok
  simp [Except.isOk, Except.toBool] at hok

/-- C7 (amended): when the connection fails, the pipeline stops with the HTTP
library's connection failure before the decoder or either encoder is
consulted (the outcome is identical for every decoder and encoder); the
status code of a received response, however, is never inspected: a non-200
response is processed exactly like a 200 with the same body. -/
theorem fetch_failure_behavior {α : Type} (pilDecode : List ℕ → Option α)
    (encImage : α → Vec) (showQ : ℚ → String) (enc : String → Vec)
    (prompts : List String) :
    (notebookRun pilDecode encImage showQ enc HttpResult.unreachable prompts =
        Except.error PipeErr.connectionError) ∧
      ∀ s s' : ℕ, ∀ body : List ℕ,
        notebookRun pilDecode encImage showQ enc (HttpResult.response s body) prompts =
          notebookRun pilDecode encImage showQ enc (HttpResult.response s' body) prompts :=
  ⟨rfl, fun _ _ _ => rfl⟩

lemma dot_one_tie (p : String) : dot [1] (tieEncoder p) = 1 := by
  norm_num [tieEncoder, dot_cons, dot_nil_left]

lemma argmaxPair_one_one : argmaxPair [(1:ℚ), 1] = some (0, 1) := by
  have h1 : argmaxPair [(1:ℚ)] = some (0, 1) := rfl
  rw [argmaxPair_cons, h1]
  simp [lt_irrefl]

/-- C9 counterexample: with two distinct prompts whose embeddings tie for
the maximal score, the reported best match follows input order, so permuting
the prompts changes the ranking outcome. -/
theorem permutation_counterexample :
    List.Perm ["a", "b"] ["b", "a"] ∧
      bestPromptOf [1] tieEncoder ["a", "b"] = some "a" ∧
      bestPromptOf [1] tieEncoder ["b", "a"] = some "b" ∧
      bestPromptOf [1] tieEncoder ["a", "b"] ≠ bestPromptOf [1] tieEncoder ["b", "a"] := by
  have hsim : ∀ p q : String, similarity [1] [tieEncoder p, tieEncoder q] = [1, 1] := by
    intro p q
    simp [similarity, dot_one_tie]
  have hab : bestPromptOf [1] tieEncoder ["a", "b"] = some "a" := by
    simp only [bestPromptOf, List.map_cons, List.map_nil]
    rw [hsim "a" "b", argmaxPair_one_one]
    rfl
  have hba : bestPromptOf [1] tieEncoder ["b", "a"] = some "b" := by
    simp only [bestPromptOf, List.map_cons, List.map_nil]
    rw [hsim "b" "a", argmaxPair_one_one]
    rfl
  refine ⟨List.Perm.swap "b" "a" [], hab, hba, ?_⟩
  rw [hab, hba]
  simp

/-- C9 (amended): permuting the prompt list (image embedding fixed) never
changes the maximal similarity score; and when exactly one prompt attains
that maximum, the reported best prompt is unchanged as well.  (Under ties
the reported prompt is the first maximizer in input order, so it does depend
on the order — see the counterexample.) -/
theorem ranking_perm_invariant (img : Vec) (enc : String → Vec)
    (l l' : List String) (hp : List.Perm l l') :
    bestScoreOf img enc l = bestScoreOf img enc l' ∧
      ∀ m : ℚ, bestScoreOf img enc l = some m →
        (l.filter (fun p => decide (dot img (enc p) = m))).length = 1 →
        bestPromptOf img enc l = bestPromptOf img enc l' := by
  have hscoreElem : ∀ (t : List String) (j : ℕ) (hj : j < t.length),
      (similarity img (t.map enc))[j]? = some (dot img (enc (t.getD j ""))) := by
    intro t j hj
    rw [similarity_map_enc, List.getElem?_map, getElem?_eq_some_getD t j "" hj]
    rfl
  have hlen : ∀ t : List String, (similarity img (t.map enc)).length = t.length := by
    intro t
    simp [similarity]
  -- the maximal score is invariant under permutation
  have hscoreinv : bestScoreOf img enc l = bestScoreOf img enc l' := by
    rcases eq_or_ne l [] with rfl | hne
    · have hl' : l' = [] := List.Perm.eq_nil hp.symm
      rw [hl']
    · have hne' : l' ≠ [] := by
        intro h0
        exact hne (List.Perm.eq_nil (h0 ▸ hp))
      have hsne : similarity img (l.map enc) ≠ [] := by
        rw [similarity_map_enc]
        simpa using hne
      have hsne' : similarity img (l'.map enc) ≠ [] := by
        rw [similarity_map_enc]
        simpa using hne'
      obtain ⟨i, m, him⟩ := argmaxPair_of_ne_nil _ hsne
      obtain ⟨i', m', him'⟩ := argmaxPair_of_ne_nil _ hsne'
      obtain ⟨hget, hle, -⟩ := argmaxPair_spec _ i m him
      obtain ⟨hget', hle', -⟩ := argmaxPair_spec _ i' m' him'
      have hperm : (similarity img (l.map enc)).Perm (similarity img (l'.map enc)) := by
        rw [similarity_map_enc, similarity_map_enc]
        exact hp.map _
      have hmm' : m = m' := by
        have hmem : m ∈ similarity img (l.map enc) := List.getElem?_mem hget
        have hmem' : m' ∈ similarity img (l'.map enc) := List.getElem?_mem hget'
        exact le_antisymm (hle' m (hperm.mem_iff.mp hmem))
          (hle m' (hperm.mem_iff.mpr hmem'))
      simp [bestScoreOf, him, him', hmm']
  refine ⟨hscoreinv, ?_⟩
  intro m hm hone
  -- unpack the arg-max of `l`
  obtain ⟨⟨i, m0⟩, him, hm0⟩ := Option.map_eq_some'.mp hm
  have hm0' : m0 = m := hm0
  rw [hm0'] at him
  obtain ⟨hget, -, hfirst⟩ := argmaxPair_spec _ i m him
  have hilen : i < l.length := by
    have := (List.getElem?_eq_some.mp hget).1
    have h2 := hlen l
    omega
  have hpx : decide (dot img (enc (l.getD i "")) = m) = true := by
    have := hscoreElem l i hilen
    rw [hget] at this
    simp only [Option.some.injEq] at this
    simp [this]
  have hbef : ∀ j, j < i → ∀ y, l[j]? = some y →
      decide (dot img (enc y) = m) = false := by
    intro j hj y hy
    have hjlen : j < l.length := lt_trans hj hilen
    have hsy : (similarity img (l.map enc))[j]? = some (dot img (enc y)) := by
      rw [similarity_map_enc, List.getElem?_map, hy]
      rfl
    have hlt := hfirst j hj (dot img (enc y)) hsy
    simp [ne_of_lt hlt]
  have hhead := filter_head?_of_first (fun p => decide (dot img (enc p) = m)) l i
    (l.getD i "") (getElem?_eq_some_getD l i "" hilen) hpx hbef
  -- the filtered list is the singleton of the best prompt
  have hfilter : l.filter (fun p => decide (dot img (enc p) = m)) = [l.getD i ""] := by
    cases hf : l.filter (fun p => decide (dot img (enc p) = m)) with
    | nil => rw [hf] at hone; simp at hone
    | cons a t =>
        cases t with
        | nil =>
            rw [hf] at hhead
            simp only [List.head?_cons, Option.some.injEq] at hhead
            rw [hhead]
        | cons b t' => rw [hf] at hone; simp at hone
  -- the same holds for `l'`
  have hm' : bestScoreOf img enc l' = some m := hscoreinv ▸ hm
  obtain ⟨⟨i', m1⟩, him', hm1⟩ := Option.map_eq_some'.mp hm'
  have hm1' : m1 = m := hm1
  rw [hm1'] at him'
  obtain ⟨hget', -, hfirst'⟩ := argmaxPair_spec _ i' m him'
  have hilen' : i' < l'.length := by
    have := (List.getElem?_eq_some.mp hget').1
    have h2 := hlen l'
    omega
  have hpx' : decide (dot img (enc (l'.getD i' "")) = m) = true := by
    have := hscoreElem l' i' hilen'
    rw [hget'] at this
    simp only [Option.some.injEq] at this
    simp [this]
  have hbef' : ∀ j, j < i' → ∀ y, l'[j]? = some y →
      decide (dot img (enc y) = m) = false := by
    intro j hj y hy
    have hsy : (similarity img (l'.map enc))[j]? = some (dot img (enc y)) := by
      rw [similarity_map_enc, List.getElem?_map, hy]
      rfl
    have hlt := hfirst' j hj (dot img (enc y)) hsy
    simp [ne_of_lt hlt]
  have hhead' := filter_head?_of_first (fun p => decide (dot img (enc p) = m)) l' i'
    (l'.getD i' "") (getElem?_eq_some_getD l' i' "" hilen') hpx' hbef'
  have hfperm := hp.filter (fun p => decide (dot img (enc p) = m))
  rw [hfilter] at hfperm
  have hfilter' : l'.filter (fun p => decide (dot img (enc p) = m)) = [l.getD i ""] :=
    List.perm_singleton.mp hfperm.symm
  rw [hfilter'] at hhead'
  simp only [List.head?_cons, Option.some.injEq] at hhead'
  simp only [bestPromptOf, him, him', Option.map_some', Option.some.injEq]
  exact hhead'

/-- Witness for the amended C9 at a concrete permutation. -/
theorem ranking_perm_invariant_witness :
    List.Perm ["a", "b"] ["b", "a"] ∧
      (bestScoreOf [1] tieEncoder ["a", "b"] = bestScoreOf [1] tieEncoder ["b", "a"] ∧
        ∀ m : ℚ, bestScoreOf [1] tieEncoder ["a", "b"] = some m →
          (["a", "b"].filter (fun p => decide (dot [1] (tieEncoder p) = m))).length = 1 →
          bestPromptOf [1] tieEncoder ["a", "b"] = bestPromptOf [1] tieEncoder ["b", "a"]) :=
  ⟨List.Perm.swap "b" "a" [],
    ranking_perm_invariant [1] tieEncoder ["a", "b"] ["b", "a"] (List.Perm.swap "b" "a" [])⟩

end CLIPZeroShot
